import Mathlib

/-!
Verification development for the weekly route-summary extraction pipeline
(`src/app.py`).  The core pipeline consumes one text string (the document
text; the PDF-to-text conversion by `pdfplumber` in `read_pdf_text` is the
external collaborator and is modelled as the input string) and produces six
CSV rows, one per weekday Monday..Saturday.

The embedding models:
 - `_two_dp`, `_int_or_zero`, `_year4` (the normalizers),
 - `parse_week_ending_saturday`, `compute_day_dates` (the date resolver,
   with `datetime.date` arithmetic modelled by the proleptic-Gregorian
   ordinal algorithms of CPython's `datetime` module),
 - `extract_header_values`, `extract_days_block` (the pattern matchers;
   each regular expression of the source is implemented directly as a
   backtracking matcher over lists of characters with Python `re.search`
   semantics: leftmost match, greedy quantifiers with backtracking,
   case-insensitive literals; character classes are modelled over ASCII),
 - `rows_from_pdf` and `stream_csv` (the row assembler and the CSV
   streaming boundary).

Python `float` strings are parsed to exact rationals and converted to IEEE
binary64 values (round to nearest, ties to even, with subnormals and
overflow to infinity); formatting with two fraction digits rounds the
exact value of the binary64 number half-to-even, which is CPython's
behaviour.  Year formatting follows `strftime` on glibc, where `%Y` does
not zero-pad years below 1000 while `%m`/`%d` zero-pad to two digits.
-/

/-! ## Characters and low-level string helpers -/

/-- The ASCII whitespace characters matched by Python's `\s` and stripped
by `str.strip` (the Unicode-only whitespace code points are not modelled). -/
def isPyWs (c : Char) : Bool :=
  c == ' ' || c == '\t' || c == '\n' || c == '\r' || c == Char.ofNat 11 || c == Char.ofNat 12

/-- ASCII lower-casing, for the case-insensitive (`re.I`) literal matches. -/
def lowerChar (c : Char) : Char :=
  if 'A' ≤ c ∧ c ≤ 'Z' then Char.ofNat (c.toNat + 32) else c

/-- Case-insensitive character comparison (ASCII). -/
def ciEq (a b : Char) : Bool := lowerChar a == lowerChar b

/-- Decimal digit character for a value below 10. -/
def digitChar (n : Nat) : Char := Char.ofNat (48 + n)

/-- Numeric value of a decimal digit character. -/
def digitVal (c : Char) : Nat := c.toNat - 48

/-- Value of a list of decimal digit characters, most significant first. -/
def digitsVal (ds : List Char) : Nat := ds.foldl (fun a c => 10 * a + digitVal c) 0

/-- Decimal digits of a positive number (empty for zero), with explicit
fuel so that the definition is structurally recursive; `natDigits` passes
ample fuel. -/
def natDigitsF : Nat → Nat → List Char
  | 0, _ => []
  | fuel + 1, n => if n = 0 then [] else natDigitsF fuel (n / 10) ++ [digitChar (n % 10)]

/-- Decimal digits of a positive number (empty for zero). -/
def natDigits (n : Nat) : List Char := natDigitsF n n

/-- Decimal string of a natural number, as Python's `str` renders it. -/
def natToStrL (n : Nat) : List Char := if n = 0 then ['0'] else natDigits n

/-- Decimal string of an integer, as Python's `str` renders it. -/
def intToStrL (i : Int) : List Char :=
  if i < 0 then '-' :: natToStrL i.natAbs else natToStrL i.natAbs

/-- Drop leading ASCII whitespace. -/
def dropWsL : List Char → List Char
  | [] => []
  | c :: cs => if isPyWs c then dropWsL cs else c :: cs

/-- Python `str.strip`: drop whitespace at both ends. -/
def stripL (cs : List Char) : List Char := (dropWsL ((dropWsL cs.reverse).reverse))

/-- Whether the first list is a prefix of the second. -/
def listStarts : List Char → List Char → Bool
  | [], _ => true
  | _ :: _, [] => false
  | p :: ps, c :: cs => p == c && listStarts ps cs

/-- Fuelled worker for `removePat`. -/
def removePatF (pat : List Char) : Nat → List Char → List Char
  | 0, l => l
  | _ + 1, [] => []
  | fuel + 1, c :: cs =>
    if pat ≠ [] ∧ listStarts pat (c :: cs) then
      removePatF pat fuel ((c :: cs).drop pat.length)
    else c :: removePatF pat fuel cs

/-- Model of Python `str.replace(pat, "")`: remove every non-overlapping
occurrence of `pat`, scanning left to right. -/
def removePat (pat : List Char) (l : List Char) : List Char :=
  removePatF pat l.length l

/-! ## The`_int_or_zero` normalizer (Python `int` parsing) -/

/-- A run of decimal digits possibly containing single underscores between
digits, as accepted inside Python numeric literals and by `int`/`float`
string conversion.  Returns the digits (underscores removed) and the rest
of the input; stops before an underscore that is not followed by a digit. -/
def digRunF : Nat → List Char → List Char × List Char
  | 0, l => ([], l)
  | _ + 1, [] => ([], [])
  | fuel + 1, c :: cs =>
    if c.isDigit then
      match cs with
      | '_' :: d :: cs2 =>
        if d.isDigit then
          let r := digRunF fuel (d :: cs2)
          (c :: r.1, r.2)
        else (([c]), '_' :: d :: cs2)
      | _ =>
        let r := digRunF fuel cs
        if r.1 = [] then ([c], cs) else (c :: r.1, r.2)
    else ([], c :: cs)

/-- See `digRunF`; the fuel bounds the input length and never runs out. -/
def digRun (l : List Char) : List Char × List Char := digRunF l.length l

/-- Python `int(s)` on an already-stripped string: optional sign followed
by a digit run (with underscores), consuming the entire string. -/
def pyIntParse (cs : List Char) : Option Int :=
  let signed : Bool × List Char :=
    match cs with
    | '+' :: r => (false, r)
    | '-' :: r => (true, r)
    | _ => (false, cs)
  match digRun signed.2 with
  | (ds, rest) =>
    if ds = [] ∨ rest ≠ [] then none
    else some (if signed.1 then -(digitsVal ds : Int) else (digitsVal ds : Int))

/-- `_int_or_zero` from `src/app.py`: `str(int(str(s).strip()))`, and `"0"`
when the conversion raises. -/
def _int_or_zero (s : String) : String :=
  match pyIntParse (stripL s.data) with
  | some i => String.mk (intToStrL i)
  | none => "0"

/-- `_year4` from `src/app.py`: two-digit years mean 2000-2099. -/
def _year4 (y : Int) : Int := if y < 100 then 2000 + y else y

/-! ## Calendar dates (CPython `datetime.date`) -/

/-- A proleptic-Gregorian calendar date, as held by `datetime.date`. -/
structure Date where
  year : Nat
  month : Nat
  day : Nat
deriving DecidableEq

/-- Gregorian leap-year rule (`datetime._is_leap`). -/
def isLeap (y : Nat) : Bool := y % 4 == 0 && (y % 100 != 0 || y % 400 == 0)

/-- Length of a month (`datetime._days_in_month`). -/
def daysInMonth (y m : Nat) : Nat :=
  if m = 2 then (if isLeap y then 29 else 28)
  else if m = 4 ∨ m = 6 ∨ m = 9 ∨ m = 11 then 30
  else 31

/-- The `_DAYS_IN_MONTH` table of `datetime` (February as 28). -/
def daysInMonthTab (m : Nat) : Nat :=
  if m = 2 then 28
  else if m = 4 ∨ m = 6 ∨ m = 9 ∨ m = 11 then 30
  else 31

/-- The `_DAYS_BEFORE_MONTH` table of `datetime`. -/
def daysBeforeMonthBase (m : Nat) : Nat :=
  if m = 1 then 0 else if m = 2 then 31 else if m = 3 then 59
  else if m = 4 then 90 else if m = 5 then 120 else if m = 6 then 151
  else if m = 7 then 181 else if m = 8 then 212 else if m = 9 then 243
  else if m = 10 then 273 else if m = 11 then 304 else 334

/-- Days in the year strictly before month `m` (`datetime._days_before_month`). -/
def daysBeforeMonth (y m : Nat) : Nat :=
  daysBeforeMonthBase m + (if 2 < m ∧ isLeap y then 1 else 0)

/-- Days strictly before January 1st of year `y` (`datetime._days_before_year`). -/
def daysBeforeYear (y : Nat) : Nat :=
  (y - 1) * 365 + (y - 1) / 4 - (y - 1) / 100 + (y - 1) / 400

/-- `datetime.date.toordinal`: day 1 is January 1st of year 1. -/
def toOrdinal (d : Date) : Nat :=
  daysBeforeYear d.year + daysBeforeMonth d.year d.month + d.day

/-- Month and day-of-month from a 0-based day-of-year `r` and a leap flag,
by the estimate-and-adjust step of `datetime._ord2ymd`. -/
def monthDayOf (leap : Bool) (r : Nat) : Nat × Nat :=
  let month := (r + 50) / 32
  let preceding := daysBeforeMonthBase month + (if 2 < month ∧ leap then 1 else 0)
  if preceding > r then
    let month1 := month - 1
    let preceding1 := preceding - (daysInMonthTab month1 + (if month1 = 2 ∧ leap then 1 else 0))
    (month1, r - preceding1 + 1)
  else (month, r - preceding + 1)

/-- `datetime.date.fromordinal` (`datetime._ord2ymd`): 400/100/4/1-year
cycle decomposition with the two end-of-cycle corrections. -/
def fromOrdinal (n : Nat) : Date :=
  let n0 := n - 1
  let n400 := n0 / 146097
  let r1 := n0 % 146097
  let n100 := r1 / 36524
  let r2 := r1 % 36524
  let n4 := r2 / 1461
  let r3 := r2 % 1461
  let n1 := r3 / 365
  let r4 := r3 % 365
  let year := n400 * 400 + 1 + n100 * 100 + n4 * 4 + n1
  if n1 = 4 ∨ n100 = 4 then ⟨year - 1, 12, 31⟩
  else
    let leap := (n1 == 3) && (n4 != 24 || n100 == 3)
    let md := monthDayOf leap r4
    ⟨year, md.1, md.2⟩

/-- `date + timedelta(days=k)`: CPython adds on ordinals. -/
def dateAddDays (d : Date) (k : Int) : Date :=
  fromOrdinal ((toOrdinal d : Int) + k).toNat

/-- Two-digit zero padding, as `strftime` `%m` and `%d` render month/day. -/
def pad2L (n : Nat) : List Char := [digitChar (n / 10 % 10), digitChar (n % 10)]

/-- `strftime("%Y-%m-%d")` as produced on glibc: the year is an unpadded
decimal number (so four digits only from year 1000 on), month and day are
zero-padded to two digits. -/
def isoDate (d : Date) : String :=
  String.mk (natToStrL d.year ++ '-' :: (pad2L d.month ++ '-' :: pad2L d.day))

/-- Validity condition enforced by the `datetime.date` constructor; the
constructor raises `ValueError` when it fails. -/
def validYMD (y m d : Nat) : Bool :=
  1 ≤ y && y ≤ 9999 && 1 ≤ m && m ≤ 12 && 1 ≤ d && d ≤ daysInMonth y m

/-! ## Python `float` strings and IEEE binary64 (the `_two_dp` normalizer)

Exact rational values are carried as an integer numerator over a positive
natural denominator, with no implicit normalization, so that every
arithmetic step reduces by kernel computation; all decisions (comparisons,
floor) depend only on the represented value. -/

/-- An exact fraction: integer numerator over a (positive by construction)
natural denominator. -/
structure Q where
  num : Int
  den : Nat

/-- The rational value of a fraction, used only in proofs. -/
def qVal (q : Q) : ℚ := (q.num : ℚ) / (q.den : ℚ)

/-- Fuelled base-2 logarithm (floor) on naturals. -/
def natLog2F : Nat → Nat → Nat
  | 0, _ => 0
  | fuel + 1, n => if 2 ≤ n then natLog2F fuel (n / 2) + 1 else 0

/-- Floor of the base-2 logarithm of a natural number (zero below two). -/
def natLog2 (n : Nat) : Nat := natLog2F n n

/-- Multiply a fraction by an integer power of two (scaling the numerator
for non-negative exponents and the denominator otherwise). -/
def qMulPow2 (q : Q) (k : Int) : Q :=
  if 0 ≤ k then ⟨q.num * ((2 ^ k.toNat : Nat) : Int), q.den⟩
  else ⟨q.num, q.den * 2 ^ (-k).toNat⟩

/-- Whether the fraction is strictly below `2 ^ k`, by cross-multiplying. -/
def qLtPow2 (q : Q) (k : Int) : Bool :=
  if 0 ≤ k then q.num < ((2 ^ k.toNat : Nat) : Int) * q.den
  else q.num * ((2 ^ (-k).toNat : Nat) : Int) < q.den

/-- Round a fraction to the nearest integer, ties to even. -/
def rndHE (q : Q) : Int :=
  let f := q.num.ediv q.den
  let r := q.num - f * q.den
  if 2 * r < (q.den : Int) then f
  else if (q.den : Int) < 2 * r then f + 1
  else if f % 2 = 0 then f else f + 1

/-- Floor of the base-2 logarithm of a positive fraction, computed from
the numerator's and denominator's logarithms with a one-step correction. -/
def qLog2 (q : Q) : Int :=
  let e0 : Int := (natLog2 q.num.toNat : Int) - (natLog2 q.den : Int)
  if qLtPow2 q e0 then e0 - 1 else e0

/-- Conversion of an exact non-negative magnitude to the nearest IEEE
binary64 value (round to nearest, ties to even), as performed by
CPython's correctly-rounded `strtod`: 53 significant bits, subnormal
range below `2 ^ (-1022)`, and `none` (overflow to infinity) when the
rounded value reaches `2 ^ 1024`. -/
def toDouble (mag : Q) : Option Q :=
  if mag.num = 0 then some ⟨0, 1⟩
  else
    let p : Int := max (qLog2 mag - 52) (-1074)
    let m : Int := rndHE (qMulPow2 mag (-p))
    let v : Q := qMulPow2 ⟨m, 1⟩ p
    if qLtPow2 v 1024 then some v else none

/-- Result of Python `float(s)` string conversion: a finite value kept as
sign and exact non-negative magnitude, an infinity, or a nan.  CPython
renders nan without a sign in `format`, so the nan sign is not tracked. -/
inductive PyF where
  | finite (neg : Bool) (mag : Q)
  | infty (neg : Bool)
  | nan

/-- ASCII lower-casing of a list of characters. -/
def lowerL (cs : List Char) : List Char := cs.map lowerChar

/-- Optional exponent part `e`/`E`, optional sign and an underscore-tolerant
digit run, which must consume the whole rest of the input; scales the
mantissa by the signed power of ten. -/
def parseExpPart (mant : Q) : List Char → Option Q
  | [] => some mant
  | c :: cs =>
    if c == 'e' || c == 'E' then
      let signed : Bool × List Char :=
        match cs with
        | '+' :: r => (false, r)
        | '-' :: r => (true, r)
        | _ => (false, cs)
      let dr := digRun signed.2
      if dr.1 = [] ∨ dr.2 ≠ [] then none
      else
        some (if signed.1 then ⟨mant.num, mant.den * 10 ^ digitsVal dr.1⟩
              else ⟨mant.num * ((10 ^ digitsVal dr.1 : Nat) : Int), mant.den⟩)
    else none

/-- The numeric body of a Python float string (after the sign): optional
integer digits, optional fraction after a point (at least one digit in the
two together), optional exponent; exact value. -/
def parseNumBody (cs : List Char) : Option Q :=
  let ipr := digRun cs
  match ipr.2 with
  | '.' :: cs2 =>
    let fpr := digRun cs2
    if ipr.1 = [] ∧ fpr.1 = [] then none
    else
      parseExpPart
        ⟨(digitsVal ipr.1 * 10 ^ fpr.1.length + digitsVal fpr.1 : Nat), 10 ^ fpr.1.length⟩
        fpr.2
  | rest =>
    if ipr.1 = [] then none else parseExpPart ⟨(digitsVal ipr.1 : Nat), 1⟩ rest

/-- Python `float(s)` string acceptance: surrounding whitespace, optional
sign, then `inf`, `infinity`, `nan` (case-insensitively) or a numeric body. -/
def pyFloatParse (s : List Char) : Option PyF :=
  let cs := stripL s
  let signed : Bool × List Char :=
    match cs with
    | '+' :: r => (false, r)
    | '-' :: r => (true, r)
    | _ => (false, cs)
  let body := signed.2
  if lowerL body = "inf".data ∨ lowerL body = "infinity".data then some (.infty signed.1)
  else if lowerL body = "nan".data then some .nan
  else
    match parseNumBody body with
    | some q => some (.finite signed.1 q)
    | none => none

/-- Fixed-point formatting of a finite binary64 value with two fraction
digits (`f"{x:.2f}"`): CPython rounds the exact value half-to-even. -/
def fmt2 (neg : Bool) (v : Q) : List Char :=
  let k := (rndHE ⟨v.num * 100, v.den⟩).toNat
  (if neg then ['-'] else []) ++ natToStrL (k / 100) ++ '.' :: pad2L (k % 100)

/-- `_two_dp` from `src/app.py`: strip the pound sign and the mis-encoded
pound sequence and whitespace, convert with `float`, format with two
fraction digits; the empty string when `float` raises.  Note the second
`replace` can never fire, because the first one has already removed every
pound sign. -/
def _two_dp (n : String) : String :=
  let s := stripL (removePat ('¬' :: ['£']) (removePat (['£']) n.data))
  match pyFloatParse s with
  | none => ""
  | some .nan => "nan"
  | some (.infty neg) => String.mk ((if neg then ['-'] else []) ++ "inf".data)
  | some (.finite neg mag) =>
    match toDouble mag with
    | none => String.mk ((if neg then ['-'] else []) ++ "inf".data)
    | some v => String.mk (fmt2 neg v)

/-! ## Regular-expression matchers

Each regular expression of `src/app.py` is implemented directly as a
matcher over `List Char` with `re.search` semantics: the text is scanned
left to right and the first position where the whole pattern matches wins;
within a position, greedy quantifiers backtrack in the same order as
Python's engine.  Wherever adjacent pieces of a pattern draw from disjoint
character classes (such as `\s*` followed by an optional colon or dash
followed by `\s*` followed by digits), the backtracking search accepts
exactly the maximal-munch parse, and the matcher takes that direct form. -/

/-- Case-insensitive literal match; returns the rest of the input. -/
def matchCI : List Char → List Char → Option (List Char)
  | [], cs => some cs
  | _ :: _, [] => none
  | l :: ls, c :: cs => if ciEq l c then matchCI ls cs else none

/-- The `\s+` pattern piece: at least one whitespace, maximal munch. -/
def reqWs : List Char → Option (List Char)
  | [] => none
  | c :: cs => if isPyWs c then some (dropWsL cs) else none

/-- An optional single character of a class (`[...]?`). -/
def dropOptC (p : Char → Bool) : List Char → List Char
  | [] => []
  | c :: cs => if p c then cs else c :: cs

/-- The `[:\-]` class of the anchor and day-block patterns. -/
def isColonDash (c : Char) : Bool := c == ':' || c == '-'

/-- The date-separator class of the anchor pattern: period, dash or slash. -/
def isDateSep (c : Char) : Bool := c == '.' || c == '-' || c == '/'

/-- Maximal run of decimal digits. -/
def takeDigits : List Char → List Char × List Char
  | [] => ([], [])
  | c :: r =>
    if c.isDigit then
      let t := takeDigits r
      (c :: t.1, t.2)
    else ([], c :: r)

/-- The `\d+` pattern piece: a nonempty maximal digit run. -/
def takeDigits1 (cs : List Char) : Option (List Char × List Char) :=
  let t := takeDigits cs
  if t.1 = [] then none else some t

/-- A 1-2 digit group followed by a date separator, greedy with
backtracking: two digits whose successor is a separator, or one digit
followed directly by a separator. -/
def matchNumSep : List Char → Option (List Char × List Char)
  | c1 :: rest1 =>
    if c1.isDigit then
      match rest1 with
      | c2 :: rest2 =>
        if c2.isDigit then
          match rest2 with
          | c3 :: rest3 => if isDateSep c3 then some ([c1, c2], rest3) else none
          | [] => none
        else if isDateSep c2 then some ([c1], rest2) else none
      | [] => none
    else none
  | [] => none

/-- The trailing 2-4 digit year group: greedy, nothing follows it in the
pattern, so it takes up to four digits and needs at least two. -/
def matchYear (cs : List Char) : Option (List Char) :=
  let t := takeDigits cs
  if 2 ≤ t.1.length then some (t.1.take 4) else none

/-- The full anchor pattern
`Week\s*ending\s*Saturday\s*[:\-]?\s*` then day, separator, month,
separator, year, tried at one position; yields the three digit groups. -/
def anchorMatchAt (cs : List Char) : Option (Nat × Nat × Nat) :=
  (matchCI ("week".data) cs).bind fun csA =>
  (matchCI ("ending".data) (dropWsL csA)).bind fun csB =>
  (matchCI ("saturday".data) (dropWsL csB)).bind fun csC =>
  (matchNumSep (dropWsL (dropOptC isColonDash (dropWsL csC)))).bind fun dc =>
  (matchNumSep dc.2).bind fun mc =>
  (matchYear mc.2).bind fun yc =>
  some (digitsVal dc.1, digitsVal mc.1, digitsVal yc)

/-- `re.search`: try the pattern at each position left to right. -/
def reSearch {α : Type} (f : List Char → Option α) : List Char → Option α
  | [] => f []
  | c :: cs =>
    match f (c :: cs) with
    | some r => some r
    | none => reSearch f cs

/-- The two error kinds the pipeline can raise: the `AnchorNotFound`
`ValueError` of `parse_week_ending_saturday`, and the `ValueError` raised
by the `datetime.date` constructor on out-of-range components. -/
inductive PipeErr where
  | anchorNotFound
  | invalidDate
deriving DecidableEq

/-- `parse_week_ending_saturday` from `src/app.py`: search for the anchor
pattern; `AnchorNotFound` when absent, otherwise expand the year with
`_year4` and construct the date, which raises on invalid components. -/
def parse_week_ending_saturday (text : String) : Except PipeErr Date :=
  match reSearch anchorMatchAt text.data with
  | none => .error .anchorNotFound
  | some dmy =>
    let y := (_year4 (dmy.2.2 : Int)).toNat
    if validYMD y dmy.2.1 dmy.1 then .ok ⟨y, dmy.2.1, dmy.1⟩
    else .error .invalidDate

/-- The fixed signed day offsets of `compute_day_dates`. -/
def dayOffset (day : String) : Int :=
  if day = "Monday" then -5
  else if day = "Tuesday" then -4
  else if day = "Wednesday" then -3
  else if day = "Thursday" then -2
  else if day = "Friday" then -1
  else 0

/-- `compute_day_dates` from `src/app.py`, as the lookup function of the
dictionary it builds: each weekday maps to the Saturday anchor plus its
fixed offset. -/
def compute_day_dates (saturday : Date) (day : String) : Date :=
  dateAddDays saturday (dayOffset day)

/-- Length of the leading whitespace run. -/
def wsRunLen : List Char → Nat
  | [] => 0
  | c :: cs => if isPyWs c then wsRunLen cs + 1 else 0

/-- A nonempty greedy capture of a character class at the end of a
pattern: maximal munch, failing on the empty match. -/
def capMatch (p : Char → Bool) (cs : List Char) : Option (List Char) :=
  let t := cs.takeWhile p
  if t = [] then none else some t

/-- Backtracking over a greedy `\s*`: try consuming the whole leading
whitespace run first, then ever shorter prefixes down to none, as
Python's engine does. -/
def tryWsDrops {α : Type} (f : List Char → Option α) (cs : List Char) : Nat → Option α
  | 0 => f cs
  | k + 1 =>
    match f (cs.drop (k + 1)) with
    | some r => some r
    | none => tryWsDrops f cs k

/-- The header-pattern tail `\s*[:.]?\s*(class+)`: full backtracking over
both whitespace stars and the optional colon/period, in engine order
(the optional element is tried consuming first), with a greedy capture.
Backtracking matters here because the generic capture class contains the
space and period characters. -/
def tailMatch (p : Char → Bool) (cs : List Char) : Option (List Char) :=
  tryWsDrops (fun cs1 =>
    let withSep : Option (List Char) :=
      match cs1 with
      | c :: r =>
        if c == ':' || c == '.' then tryWsDrops (fun cs2 => capMatch p cs2) r (wsRunLen r)
        else none
      | [] => none
    match withSep with
    | some cap => some cap
    | none => tryWsDrops (fun cs2 => capMatch p cs2) cs1 (wsRunLen cs1)) cs (wsRunLen cs)

/-- The generic header capture class: letters, digits, space, dash,
underscore, slash, period. -/
def genericCap (c : Char) : Bool :=
  c.isAlpha || c.isDigit || c == ' ' || c == '-' || c == '_' || c == '/' || c == '.'

/-- The stricter Route No capture class: no space and no period. -/
def routeCap (c : Char) : Bool :=
  c.isAlpha || c.isDigit || c == '-' || c == '_' || c == '/'

/-- The Route No pattern `Route\s*No\.?` + tail at one position; the
optional literal period is greedy and backtracks into the tail. -/
def routeMatchAt (cs : List Char) : Option (List Char) :=
  (matchCI ("route".data) cs).bind fun cs1 =>
  (matchCI ("no".data) (dropWsL cs1)).bind fun cs2 =>
  match cs2 with
  | '.' :: r =>
    match tailMatch routeCap r with
    | some cap => some cap
    | none => tailMatch routeCap ('.' :: r)
  | _ => tailMatch routeCap cs2

/-- A two-word label (each pair of words separated by `\s*`) followed by
the generic tail, at one position. -/
def labelTail2 (w1 w2 : List Char) (cs : List Char) : Option (List Char) :=
  (matchCI w1 cs).bind fun cs1 =>
  (matchCI w2 (dropWsL cs1)).bind fun cs2 =>
  tailMatch genericCap cs2

/-- The three-word Cost Centre Code label followed by the generic tail. -/
def labelTail3 (w1 w2 w3 : List Char) (cs : List Char) : Option (List Char) :=
  (matchCI w1 cs).bind fun cs1 =>
  (matchCI w2 (dropWsL cs1)).bind fun cs2 =>
  (matchCI w3 (dropWsL cs2)).bind fun cs3 =>
  tailMatch genericCap cs3

/-- The `grab` helper of `extract_header_values`: first match wins, the
captured group is stripped, no match yields the empty string. -/
def grabField (m : List Char → Option (List Char)) (text : String) : String :=
  match reSearch m text.data with
  | some cap => String.mk (stripL cap)
  | none => ""

/-- The five document-level header fields. -/
structure Header where
  routeNo : String
  invoiceNo : String
  internalReference : String
  contractNumber : String
  costCentre : String
deriving DecidableEq

/-- `extract_header_values` from `src/app.py`. -/
def extract_header_values (text : String) : Header :=
  { routeNo := grabField routeMatchAt text
    invoiceNo := grabField (labelTail2 ("invoice".data) ("no".data)) text
    internalReference := grabField (labelTail2 ("internal".data) ("reference".data)) text
    contractNumber := grabField (labelTail2 ("contract".data) ("number".data)) text
    costCentre := grabField (labelTail3 ("cost".data) ("centre".data) ("code".data)) text }

/-- The payment capture `[0-9]+` with an optional point and one or two
further digits, greedy, at the end of the day-block pattern. -/
def payCapture (cs : List Char) : Option (List Char × List Char) :=
  (takeDigits1 cs).bind fun t =>
  match t.2 with
  | '.' :: r2 =>
    let f := takeDigits r2
    if f.1 = [] then some (t.1, '.' :: r2)
    else some (t.1 ++ '.' :: f.1.take 2, f.1.drop 2 ++ f.2)
  | _ => some t

/-- The pattern piece `\s*[:\-]?\s*(\d+)` of the day-block pattern:
optional separator inside whitespace, then the captured digit group. -/
def dayNumPart (cs : List Char) : Option (List Char × List Char) :=
  takeDigits1 (dropWsL (dropOptC isColonDash (dropWsL cs)))

/-- The pattern piece `\s+` followed by a literal word of the day-block
pattern. -/
def dayLabelPart (w : List Char) (cs : List Char) : Option (List Char) :=
  (reqWs cs).bind fun cs1 => matchCI w cs1

/-- The day-block pattern of `extract_days_block` tried at one position:
the weekday name, `Total Stops`, a digit group, `Total Parcels`, a digit
group, `Payment`, an optional pound sign, and the payment group, with the
separators and whitespace tolerance of the source pattern.  Yields the
three captured groups. -/
def dayMatchAt (day : List Char) (cs : List Char) : Option (List Char × List Char × List Char) :=
  (matchCI day cs).bind fun csA =>
  (dayLabelPart ("total".data) csA).bind fun csB =>
  (dayLabelPart ("stops".data) csB).bind fun csC =>
  (dayNumPart csC).bind fun st =>
  (dayLabelPart ("total".data) st.2).bind fun csD =>
  (dayLabelPart ("parcels".data) csD).bind fun csE =>
  (dayNumPart csE).bind fun pc =>
  (dayLabelPart ("payment".data) pc.2).bind fun csF =>
  (payCapture (dropWsL (dropOptC (fun c => c == '£') (dropWsL (dropOptC isColonDash (dropWsL csF)))))).bind fun pay =>
  some (st.1, pc.1, pay.1)

/-- The fixed weekday list `DAY_NAMES` of `src/app.py`. -/
def DAY_NAMES : List String :=
  ["Monday", "Tuesday", "Wednesday", "Thursday", "Friday", "Saturday"]

/-- One weekday's entry of `extract_days_block`: on a match the stop and
parcel groups go through `_int_or_zero` and the payment group through
`_two_dp`; with no match the triple is `("0", "0", _two_dp "0")`. -/
def dayTriple (text : String) (day : String) : String × String × String :=
  match reSearch (dayMatchAt day.data) text.data with
  | some t => (_int_or_zero (String.mk t.1), _int_or_zero (String.mk t.2.1), _two_dp (String.mk t.2.2))
  | none => ("0", "0", _two_dp "0")

/-- `extract_days_block` from `src/app.py`, as the association list of its
result dictionary in insertion order. -/
def extract_days_block (text : String) : List (String × String × String × String) :=
  DAY_NAMES.map fun day => (day, dayTriple text day)

/-- One output row, with the eight fields of `COLUMNS`. -/
structure Row where
  date : String
  routeNo : String
  totalStops : String
  totalParcels : String
  payment : String
  internalReference : String
  contractNumber : String
  costCentre : String
deriving DecidableEq

/-- `rows_from_pdf` from `src/app.py`, over the already-extracted document
text (the `read_pdf_text` collaborator is outside the core).  The header
extraction, anchor parse, date computation and day extraction all run
before the first row is yielded, so a raised error yields no rows; the
generator is modelled as `Except` over the list of its yields. -/
def rows_from_pdf (text : String) : Except PipeErr (List Row) :=
  let hdr := extract_header_values text
  match parse_week_ending_saturday text with
  | .error e => .error e
  | .ok saturday =>
    .ok (DAY_NAMES.map fun day =>
      let t := dayTriple text day
      { date := isoDate (compute_day_dates saturday day)
        routeNo := hdr.routeNo
        totalStops := t.1
        totalParcels := t.2.1
        payment := t.2.2
        internalReference := hdr.internalReference
        contractNumber := hdr.contractNumber
        costCentre := hdr.costCentre })

/-- The fixed CSV column list of `src/app.py`. -/
def COLUMNS : List String :=
  ["Date", "Route No", "Total Stops", "Total Parcels", "Payment",
   "Internal Reference", "Contract Number", "Cost Centre Code"]

/-- One line written by the `csv` writer: comma-separated fields and the
default CRLF terminator.  No produced field can contain a comma, a quote
or a line break (captures exclude them and the numeric fields are digit
strings), so the writer's minimal quoting never fires and plain joining
is exact. -/
def csvLine (fields : List String) : String := String.intercalate "," fields ++ "\r\n"

/-- The eight fields of a row in `COLUMNS` order, as the `DictWriter`
renders them. -/
def rowFields (r : Row) : List String :=
  [r.date, r.routeNo, r.totalStops, r.totalParcels, r.payment,
   r.internalReference, r.contractNumber, r.costCentre]

/-- The generator inside `stream_csv` from `src/app.py`: it always writes
and yields the header line first, then iterates `rows_from_pdf`, whose
body only runs (and can only raise) after the header chunk is out.  The
stream is modelled as the list of yielded chunks together with the error
that terminates it, if any. -/
def stream_csv (text : String) : List String × Option PipeErr :=
  match rows_from_pdf text with
  | .ok rows => (csvLine COLUMNS :: rows.map (fun r => csvLine (rowFields r)), none)
  | .error e => ([csvLine COLUMNS], some e)

/-! ## Predicates used to state the claims -/

/-- A nonempty string of decimal digits: the decimal form of a
non-negative integer. -/
def isNonnegIntStr (s : String) : Bool :=
  s.data ≠ [] && s.data.all Char.isDigit

/-- The decimal form of an integer: digits with an optional leading
minus sign. -/
def isIntStr (s : String) : Bool :=
  match s.data with
  | '-' :: r => r ≠ [] && r.all Char.isDigit
  | r => r ≠ [] && r.all Char.isDigit

/-- A decimal string with exactly two fraction digits: a nonempty digit
run, a point, and exactly two digits. -/
def isTwoDpStr (s : String) : Bool :=
  let t := takeDigits s.data
  t.1 ≠ [] &&
    (match t.2 with
     | ['.', a, b] => a.isDigit && b.isDigit
     | _ => false)

/-- Whether the currency-stripped, trimmed form of a string parses as a
Python float (the hypothesis of the `normalizeAmount` idempotence claim). -/
def twoDpParses (x : String) : Bool :=
  (pyFloatParse (stripL (removePat ('¬' :: ['£']) (removePat (['£']) x.data)))).isSome

/-! ## Date arithmetic facts -/

set_option maxRecDepth 100000

/-- The estimate-and-adjust month/day step of `_ord2ymd` is exact: for a
0-based day-of-year below 365 it returns a month and day whose days-before
count and day add back to the day-of-year. -/
theorem monthDayOf_sum (leap : Bool) : ∀ r : Nat, r < 365 →
    daysBeforeMonthBase (monthDayOf leap r).1
      + (if 2 < (monthDayOf leap r).1 ∧ leap = true then 1 else 0)
      + (monthDayOf leap r).2 = r + 1 := by
  cases leap
  · decide
  · decide

/-- `toordinal` is a left inverse of `fromordinal` on positive ordinals. -/
theorem toOrdinal_fromOrdinal (n : Nat) (hn : 1 ≤ n) : toOrdinal (fromOrdinal n) = n := by
  simp only [fromOrdinal]
  generalize hN0 : n - 1 = n0
  generalize hA : n0 / 146097 = a
  generalize hR1 : n0 % 146097 = r1
  generalize hB : r1 / 36524 = b
  generalize hR2 : r1 % 36524 = r2
  generalize hC : r2 / 1461 = c
  generalize hR3 : r2 % 1461 = r3
  generalize hE : r3 / 365 = e
  generalize hR4 : r3 % 365 = r4
  split_ifs with hedge
  · rcases hedge with he4 | hb4
    · -- n1 = 4: December 31st of a leap year ending a 4-year sub-cycle
      have hr3v : r3 = 1460 := by omega
      have hcle : c ≤ 23 := by omega
      have hleap : isLeap (a * 400 + 1 + b * 100 + c * 4 + e - 1) = true := by
        simp only [isLeap, Bool.and_eq_true, beq_iff_eq, Bool.or_eq_true, bne_iff_ne, ne_eq,
          decide_eq_true_eq]
        omega
      simp only [toOrdinal, daysBeforeMonth, daysBeforeYear, hleap]
      simp only [daysBeforeMonthBase]
      have hm : a * 400 + 1 + b * 100 + c * 4 + e - 1 - 1 = 400*a + 100*b + 4*c + 3 := by omega
      rw [hm]
      have ho : (400*a + 100*b + 4*c + 3) / 4 = 100*a + 25*b + c := by omega
      have hp : (400*a + 100*b + 4*c + 3) / 100 = 4*a + b := by omega
      have hl : (400*a + 100*b + 4*c + 3) / 400 = a := by omega
      rw [ho, hp, hl]
      norm_num
      omega
    · -- n100 = 4: December 31st of a year divisible by 400
      have hbv : b = 4 := hb4
      have hr1v : r1 = 146096 := by omega
      have hr2v : r2 = 0 := by omega
      have hcv : c = 0 := by omega
      have hr3v : r3 = 0 := by omega
      have hev : e = 0 := by omega
      have hleap : isLeap (a * 400 + 1 + b * 100 + c * 4 + e - 1) = true := by
        simp only [isLeap, Bool.and_eq_true, beq_iff_eq, Bool.or_eq_true, bne_iff_ne, ne_eq,
          decide_eq_true_eq]
        omega
      simp only [toOrdinal, daysBeforeMonth, daysBeforeYear, hleap]
      simp only [daysBeforeMonthBase]
      have hm : a * 400 + 1 + b * 100 + c * 4 + e - 1 - 1 = 400*a + 399 := by omega
      rw [hm]
      have ho : (400*a + 399) / 4 = 100*a + 99 := by omega
      have hp : (400*a + 399) / 100 = 4*a + 3 := by omega
      have hl : (400*a + 399) / 400 = a := by omega
      rw [ho, hp, hl]
      norm_num
      omega
  · -- the main branch of `_ord2ymd`
    have hb3 : b ≤ 3 := by omega
    have he3 : e ≤ 3 := by omega
    have hc24 : c ≤ 24 := by omega
    have hr4lt : r4 < 365 := by omega
    have hflag : isLeap (a * 400 + 1 + b * 100 + c * 4 + e)
        = ((e == 3) && (c != 24 || b == 3)) := by
      rw [Bool.eq_iff_iff]
      simp only [isLeap, Bool.and_eq_true, beq_iff_eq, Bool.or_eq_true, bne_iff_ne, ne_eq,
        decide_eq_true_eq]
      omega
    have hmd := monthDayOf_sum ((e == 3) && (c != 24 || b == 3)) r4 hr4lt
    simp only [toOrdinal, daysBeforeMonth, daysBeforeYear, hflag]
    have hm : a * 400 + 1 + b * 100 + c * 4 + e - 1 = 400*a + 100*b + 4*c + e := by omega
    rw [hm]
    have ho : (400*a + 100*b + 4*c + e) / 4 = 100*a + 25*b + c := by omega
    have hp : (400*a + 100*b + 4*c + e) / 100 = 4*a + b := by omega
    have hl : (400*a + 100*b + 4*c + e) / 400 = a := by omega
    rw [ho, hp, hl]
    omega

/-- A successfully parsed anchor has year at least 100 (two-digit years
are expanded to 2000-2099, longer ones are at least 100 after `_year4`
only when already so; a match always yields a year of at least 100
because `_year4` maps everything below 100 into 2000-2099), and its
components passed the `datetime.date` constructor check. -/
theorem parse_ok_props (text : String) (sat : Date)
    (h : parse_week_ending_saturday text = .ok sat) :
    100 ≤ sat.year ∧ validYMD sat.year sat.month sat.day = true := by
  unfold parse_week_ending_saturday at h
  cases hs : reSearch anchorMatchAt text.data with
  | none => rw [hs] at h; exact absurd h (by simp)
  | some dmy =>
    rw [hs] at h
    simp only at h
    split_ifs at h with hv
    · cases h
      dsimp only
      refine ⟨?_, hv⟩
      unfold _year4
      split_ifs with hy
      · omega
      · omega

/-- The ordinal of a date with year at least 100 is comfortably positive. -/
theorem toOrdinal_lb (d : Date) (hy : 100 ≤ d.year) : 6 ≤ toOrdinal d := by
  unfold toOrdinal daysBeforeYear
  have h365 : 36135 ≤ (d.year - 1) * 365 := by
    have : 99 ≤ d.year - 1 := by omega
    calc 36135 = 99 * 365 := by norm_num
    _ ≤ (d.year - 1) * 365 := Nat.mul_le_mul_right 365 this
  omega

/-- Adding `k` days and then one more advances the ordinal by exactly one,
whenever the base ordinal stays positive. -/
theorem dateAddDays_succ (d : Date) (k : Int)
    (hk : 1 ≤ (toOrdinal d : Int) + k) :
    toOrdinal (dateAddDays d (k + 1)) = toOrdinal (dateAddDays d k) + 1 := by
  unfold dateAddDays
  rw [toOrdinal_fromOrdinal _ (by omega), toOrdinal_fromOrdinal _ (by omega)]
  omega

/-! ## Row assembly facts -/

/-- With a successfully parsed anchor, `rows_from_pdf` yields exactly the
six weekday rows built from the shared header values, per-day dates and
per-day metric triples. -/
theorem rows_ok_of_parse_ok (text : String) (sat : Date)
    (h : parse_week_ending_saturday text = .ok sat) :
    rows_from_pdf text = .ok (DAY_NAMES.map fun day =>
      { date := isoDate (compute_day_dates sat day)
        routeNo := (extract_header_values text).routeNo
        totalStops := (dayTriple text day).1
        totalParcels := (dayTriple text day).2.1
        payment := (dayTriple text day).2.2
        internalReference := (extract_header_values text).internalReference
        contractNumber := (extract_header_values text).contractNumber
        costCentre := (extract_header_values text).costCentre }) := by
  simp [rows_from_pdf, h]

/-- When the anchor pattern has no match, the pipeline raises
`AnchorNotFound` before yielding anything. -/
theorem rows_of_anchor_missing (text : String)
    (h : reSearch anchorMatchAt text.data = none) :
    rows_from_pdf text = .error .anchorNotFound := by
  simp [rows_from_pdf, parse_week_ending_saturday, h]

/-! ## The claims -/

/-- C1: for every input text whose anchor date resolves, `rows_from_pdf`
produces exactly six rows, Monday through Saturday in that order, whose
`Date` fields are the `%Y-%m-%d` rendering of the anchor plus the fixed
offsets Monday = anchor minus 5 days through Saturday = anchor, so the six
dates are strictly increasing (consecutive days) and span exactly 5 days.
The ISO `YYYY-MM-DD` shape claimed by the specification additionally needs
a four-digit year; see the correction in the results. -/
theorem claim_C1 (text : String) (sat : Date)
    (h : parse_week_ending_saturday text = .ok sat) :
    ∃ rows, rows_from_pdf text = .ok rows ∧ rows.length = 6 ∧
      (∀ i : Nat, i < 6 →
        (rows.get? i).map Row.date = some (isoDate (dateAddDays sat ((i : Int) - 5)))) ∧
      (∀ i : Nat, i < 5 →
        toOrdinal (dateAddDays sat ((i : Int) + 1 - 5))
          = toOrdinal (dateAddDays sat ((i : Int) - 5)) + 1) ∧
      toOrdinal (dateAddDays sat 0) = toOrdinal (dateAddDays sat (-5)) + 5 := by
  have hy := (parse_ok_props text sat h).1
  have hord := toOrdinal_lb sat hy
  refine ⟨_, rows_ok_of_parse_ok text sat h, ?_, ?_, ?_, ?_⟩
  · simp [DAY_NAMES]
  · intro i hi
    interval_cases i
    · rfl
    · rfl
    · rfl
    · rfl
    · rfl
    · rfl
  · intro i hi
    have h2 : (i : Int) + 1 - 5 = ((i : Int) - 5) + 1 := by ring
    rw [h2]
    exact dateAddDays_succ sat ((i : Int) - 5) (by omega)
  · unfold dateAddDays
    rw [toOrdinal_fromOrdinal _ (by omega), toOrdinal_fromOrdinal _ (by omega)]
    omega

/-- Witness for C1 at a concrete document. -/
theorem claim_C1_w : ∃ rows,
    rows_from_pdf "Week ending Saturday 14.06.25" = .ok rows ∧ rows.length = 6 ∧
      (∀ i : Nat, i < 6 →
        (rows.get? i).map Row.date
          = some (isoDate (dateAddDays ⟨2025, 6, 14⟩ ((i : Int) - 5)))) ∧
      (∀ i : Nat, i < 5 →
        toOrdinal (dateAddDays ⟨2025, 6, 14⟩ ((i : Int) + 1 - 5))
          = toOrdinal (dateAddDays ⟨2025, 6, 14⟩ ((i : Int) - 5)) + 1) ∧
      toOrdinal (dateAddDays ⟨2025, 6, 14⟩ 0)
        = toOrdinal (dateAddDays ⟨2025, 6, 14⟩ (-5)) + 5 :=
  claim_C1 "Week ending Saturday 14.06.25" ⟨2025, 6, 14⟩ (by rfl)

/-- C2: for every input text in which the anchor pattern does not match
anywhere, the pipeline fails with `AnchorNotFound` and yields zero rows,
and the CSV stream carries only the header chunk. -/
theorem claim_C2 (text : String)
    (h : reSearch anchorMatchAt text.data = none) :
    rows_from_pdf text = .error .anchorNotFound ∧
      (stream_csv text).1 = [csvLine COLUMNS] := by
  have hr := rows_of_anchor_missing text h
  exact ⟨hr, by simp [stream_csv, hr]⟩

/-- Witness for C2 at a concrete anchor-free document. -/
theorem claim_C2_w :
    rows_from_pdf "hello world" = .error .anchorNotFound ∧
      (stream_csv "hello world").1 = [csvLine COLUMNS] :=
  claim_C2 "hello world" (by rfl)

/-- C3 counterexample: the anchor pattern matches `31.02.25`, yet the
pipeline raises the date-constructor error (February has no 31st), so a
matching anchor pattern does not guarantee six rows and `AnchorNotFound`
is not the single fatal condition. -/
theorem claim_C3_cex :
    reSearch anchorMatchAt ("Week ending Saturday 31.02.25".data) = some (31, 2, 25) ∧
      rows_from_pdf "Week ending Saturday 31.02.25" = .error .invalidDate :=
  ⟨by rfl, by rfl⟩

/-- C3 as amended: an input whose anchor pattern matches with components
that form a valid calendar date (after year expansion) always yields the
six rows; only invalid components make a matching anchor fail, with an
error distinct from `AnchorNotFound`. -/
theorem claim_C3 (text : String) (d m y : Nat)
    (hm : reSearch anchorMatchAt text.data = some (d, m, y))
    (hv : validYMD (_year4 (y : Int)).toNat m d = true) :
    ∃ rows, rows_from_pdf text = .ok rows ∧ rows.length = 6 := by
  have hp : parse_week_ending_saturday text = .ok ⟨(_year4 (y : Int)).toNat, m, d⟩ := by
    unfold parse_week_ending_saturday
    rw [hm]
    simp [hv]
  exact ⟨_, rows_ok_of_parse_ok text _ hp, by simp [DAY_NAMES]⟩

/-- Witness for the amended C3 at a concrete document. -/
theorem claim_C3_w : ∃ rows,
    rows_from_pdf "Week ending Saturday 14.6.25" = .ok rows ∧ rows.length = 6 :=
  claim_C3 "Week ending Saturday 14.6.25" 14 6 25 (by rfl) (by rfl)

/-- C9: `_year4` maps every integer below 100 to 2000 plus it and leaves
everything at and above 100 unchanged; in particular 25 becomes 2025,
1999 stays 1999 and 99 becomes 2099. -/
theorem claim_C9 (y : Int) :
    (y < 100 → _year4 y = 2000 + y) ∧ (100 ≤ y → _year4 y = y) ∧
      _year4 25 = 2025 ∧ _year4 1999 = 1999 ∧ _year4 99 = 2099 := by
  refine ⟨fun hy => ?_, fun hy => ?_, by decide, by decide, by decide⟩
  · simp [_year4, hy]
  · simp only [_year4]
    rw [if_neg (by omega)]

/-- Witness for C9, discharging both guarded branches at concrete years. -/
theorem claim_C9_w : _year4 25 = 2000 + 25 ∧ _year4 1999 = 1999 :=
  ⟨(claim_C9 25).1 (by norm_num), (claim_C9 1999).2.1 (by norm_num)⟩

/-- C10: the CSV generator always emits the header line (the eight column
names) as its first chunk before the extraction pipeline runs, so on an
anchor-free input the stream holds exactly the header line and then the
`AnchorNotFound` error surfaces mid-stream. -/
theorem claim_C10 (text : String) :
    (stream_csv text).1.head? = some (csvLine COLUMNS) ∧
      (reSearch anchorMatchAt text.data = none →
        stream_csv text = ([csvLine COLUMNS], some .anchorNotFound)) := by
  constructor
  · unfold stream_csv
    cases hr : rows_from_pdf text <;> simp
  · intro h
    simp [stream_csv, rows_of_anchor_missing text h]

/-- Witness for C10 at a concrete anchor-free document. -/
theorem claim_C10_w :
    (stream_csv "no dates in sight").1.head? = some (csvLine COLUMNS) ∧
      stream_csv "no dates in sight" = ([csvLine COLUMNS], some .anchorNotFound) :=
  ⟨(claim_C10 "no dates in sight").1, (claim_C10 "no dates in sight").2 (by rfl)⟩

/-- C1 counterexample to the ISO-8601 form: an anchor year below 1000 is
accepted by the pattern (year group of 2-4 digits) and yields `%Y`
renderings of only three digits, such as `998-12-27`, which is not a
ten-character `YYYY-MM-DD` date. -/
theorem claim_C1_cex :
    (rows_from_pdf "Week ending Saturday 1.1.999").toOption.map (fun rows => rows.map Row.date)
      = some ["998-12-27", "998-12-28", "998-12-29", "998-12-30", "998-12-31", "999-01-01"]
    ∧ "998-12-27".length ≠ 10 :=
  ⟨by rfl, by decide⟩

/-- C6: the worked example of the specification, evaluated end to end:
anchor `14.06.25`, a Monday block with 107 stops, 226 parcels and a
pound-sign payment of 281.93, and no other weekday blocks. -/
theorem claim_C6 :
    rows_from_pdf "Week ending Saturday: 14.06.25\nMonday Total Stops: 107 Total Parcels: 226 Payment: £281.93"
      = .ok [⟨"2025-06-09", "", "107", "226", "281.93", "", "", ""⟩,
             ⟨"2025-06-10", "", "0", "0", "0.00", "", "", ""⟩,
             ⟨"2025-06-11", "", "0", "0", "0.00", "", "", ""⟩,
             ⟨"2025-06-12", "", "0", "0", "0.00", "", "", ""⟩,
             ⟨"2025-06-13", "", "0", "0", "0.00", "", "", ""⟩,
             ⟨"2025-06-14", "", "0", "0", "0.00", "", "", ""⟩] := by
  rfl

/-- C4 counterexample: a 310-digit payment numeral matches the payment
group, overflows the binary64 conversion inside Python's `float`, and the
formatted triple carries the string `inf`, which is not a decimal string
with two fraction digits. -/
theorem claim_C4_cex :
    dayTriple ("Monday Total Stops 1 Total Parcels 2 Payment "
        ++ String.mk (List.replicate 310 '9')) "Monday" = ("1", "2", "inf")
    ∧ (extract_days_block ("Monday Total Stops 1 Total Parcels 2 Payment "
        ++ String.mk (List.replicate 310 '9'))).head?
        = some ("Monday", ("1", "2", "inf"))
    ∧ isTwoDpStr "inf" = false :=
  ⟨by rfl, by rfl, by rfl⟩

/-- C8: header extraction is total and never fails the document: every
field whose label pattern has no match anywhere in the text is the empty
string (each field independently), and the header values of one document
are shared identically by every produced row; in particular with no Route
No label every row's Route No is empty while the other fields are the
products of their own independent searches. -/
theorem claim_C8 (text : String) :
    (reSearch routeMatchAt text.data = none → (extract_header_values text).routeNo = "") ∧
    (reSearch (labelTail2 ("invoice".data) ("no".data)) text.data = none →
      (extract_header_values text).invoiceNo = "") ∧
    (reSearch (labelTail2 ("internal".data) ("reference".data)) text.data = none →
      (extract_header_values text).internalReference = "") ∧
    (reSearch (labelTail2 ("contract".data) ("number".data)) text.data = none →
      (extract_header_values text).contractNumber = "") ∧
    (reSearch (labelTail3 ("cost".data) ("centre".data) ("code".data)) text.data = none →
      (extract_header_values text).costCentre = "") ∧
    (∀ rows, rows_from_pdf text = .ok rows → ∀ r ∈ rows,
      r.routeNo = (extract_header_values text).routeNo ∧
      r.internalReference = (extract_header_values text).internalReference ∧
      r.contractNumber = (extract_header_values text).contractNumber ∧
      r.costCentre = (extract_header_values text).costCentre) := by
  refine ⟨fun h => ?_, fun h => ?_, fun h => ?_, fun h => ?_, fun h => ?_, ?_⟩
  · simp [extract_header_values, grabField, h]
  · simp [extract_header_values, grabField, h]
  · simp [extract_header_values, grabField, h]
  · simp [extract_header_values, grabField, h]
  · simp [extract_header_values, grabField, h]
  · intro rows hr r hmem
    cases hp : parse_week_ending_saturday text with
    | error e =>
      have herr : rows_from_pdf text = .error e := by
        simp [rows_from_pdf, hp]
      rw [herr] at hr
      simp at hr
    | ok sat =>
      rw [rows_ok_of_parse_ok text sat hp] at hr
      injection hr with hr
      subst hr
      rcases List.mem_map.mp hmem with ⟨day, _, rfl⟩
      exact ⟨rfl, rfl, rfl, rfl⟩

/-- Witness for C8 at a concrete document with no header labels. -/
theorem claim_C8_w :
    (extract_header_values "Week ending Saturday 14.06.25").routeNo = "" ∧
    (extract_header_values "Week ending Saturday 14.06.25").invoiceNo = "" :=
  ⟨(claim_C8 "Week ending Saturday 14.06.25").1 (by rfl),
   (claim_C8 "Week ending Saturday 14.06.25").2.1 (by rfl)⟩

theorem uint32_le_toNat {a b : UInt32} (h : a ≤ b) : a.toBitVec.toNat ≤ b.toBitVec.toNat :=
  BitVec.le_def.mp (UInt32.le_def.mp h)

theorem isDigit_val (c : Char) (h : c.isDigit = true) : 48 ≤ c.val ∧ c.val ≤ 57 := by
  simpa [Char.isDigit] using h

theorem isDigit_not_ws (c : Char) (h : c.isDigit = true) : isPyWs c = false := by
  simp only [isPyWs, Bool.or_eq_false_iff, beq_eq_false_iff_ne, ne_eq]
  refine ⟨⟨⟨⟨⟨?_, ?_⟩, ?_⟩, ?_⟩, ?_⟩, ?_⟩ <;> rintro rfl <;> exact absurd h (by decide)

theorem isDigit_lower (c : Char) (h : c.isDigit = true) : lowerChar c = c := by
  have hv := isDigit_val c h
  unfold lowerChar
  rw [if_neg]
  rintro ⟨h1, h2⟩
  have ha := uint32_le_toNat (show ('A' : Char).val ≤ c.val from h1)
  have hb := uint32_le_toNat hv.2
  have e1 : ('A' : Char).val.toBitVec.toNat = 65 := by decide
  have e2 : (57 : UInt32).toBitVec.toNat = 57 := by decide
  omega

theorem isDigit_ne (c d : Char) (h : c.isDigit = true) (hd : d.isDigit = false) : c ≠ d := by
  rintro rfl
  rw [h] at hd
  cases hd

theorem digitChar_isDigit (m : Nat) (h : m < 10) : (digitChar m).isDigit = true := by
  interval_cases m <;> decide

theorem digitVal_digitChar (m : Nat) (h : m < 10) : digitVal (digitChar m) = m := by
  interval_cases m <;> decide

theorem digitsVal_append_one (a : List Char) (c : Char) :
    digitsVal (a ++ [c]) = 10 * digitsVal a + digitVal c := by
  simp [digitsVal, List.foldl_append]

theorem natDigitsF_spec : ∀ fuel n : Nat, n ≤ fuel →
    (natDigitsF fuel n).all Char.isDigit = true ∧ digitsVal (natDigitsF fuel n) = n ∧
      (n ≠ 0 → natDigitsF fuel n ≠ []) := by
  intro fuel
  induction fuel with
  | zero =>
    intro n hn
    have : n = 0 := by omega
    subst this
    exact ⟨rfl, rfl, fun h => absurd rfl h⟩
  | succ f ih =>
    intro n hn
    by_cases h0 : n = 0
    · subst h0
      exact ⟨rfl, rfl, fun h => absurd rfl h⟩
    · have hd : n / 10 ≤ f := by omega
      obtain ⟨ha, hv, _⟩ := ih (n / 10) hd
      have hm : n % 10 < 10 := Nat.mod_lt _ (by omega)
      refine ⟨?_, ?_, ?_⟩
      · simp [natDigitsF, h0, List.all_append, ha, digitChar_isDigit _ hm]
      · simp [natDigitsF, h0, digitsVal_append_one, hv, digitVal_digitChar _ hm]
        omega
      · intro _
        simp [natDigitsF, h0]

theorem natToStrL_all (n : Nat) : (natToStrL n).all Char.isDigit = true := by
  unfold natToStrL natDigits
  split_ifs with h
  · decide
  · exact (natDigitsF_spec n n le_rfl).1

theorem natToStrL_ne_nil (n : Nat) : natToStrL n ≠ [] := by
  unfold natToStrL natDigits
  split_ifs with h
  · simp
  · exact (natDigitsF_spec n n le_rfl).2.2 h

theorem natToStrL_val (n : Nat) : digitsVal (natToStrL n) = n := by
  unfold natToStrL natDigits
  split_ifs with h
  · simp [h]
    decide
  · exact (natDigitsF_spec n n le_rfl).2.1

theorem pad2L_all (n : Nat) : (pad2L n).all Char.isDigit = true := by
  simp [pad2L, List.all_cons, digitChar_isDigit _ (Nat.mod_lt _ (by omega))]

theorem pad2L_val (n : Nat) (h : n < 100) : digitsVal (pad2L n) = n := by
  simp [pad2L, digitsVal, digitVal_digitChar _ (Nat.mod_lt _ (by omega : (0:Nat) < 10))]
  omega

theorem isIntStr_intToStrL (i : Int) : isIntStr (String.mk (intToStrL i)) = true := by
  unfold intToStrL isIntStr
  split_ifs with hi
  · show ((match '-' :: natToStrL i.natAbs with
      | '-' :: r => decide (r ≠ []) && r.all Char.isDigit
      | r => decide (r ≠ []) && r.all Char.isDigit) = true)
    simp [natToStrL_all, natToStrL_ne_nil]
  · have hall := natToStrL_all i.natAbs
    have hne := natToStrL_ne_nil i.natAbs
    cases hc : natToStrL i.natAbs with
    | nil => exact absurd hc hne
    | cons c cs =>
      have hcd : c.isDigit = true := by
        rw [hc] at hall
        simp [List.all_cons] at hall
        exact hall.1
      have hcne : c ≠ '-' := isDigit_ne c '-' hcd (by decide)
      rw [hc] at hall
      simp only [String.mk]
      split
      · rename_i r heq
        injection heq with h1 _
        exact absurd h1 hcne
      · simpa using hall

theorem dropWsL_noop (l : List Char) (h : ∀ c ∈ l, isPyWs c = false) : dropWsL l = l := by
  cases l with
  | nil => rfl
  | cons c cs =>
    unfold dropWsL
    rw [if_neg]
    rw [h c (List.mem_cons_self c cs)]
    simp

theorem stripL_noop (l : List Char) (h : ∀ c ∈ l, isPyWs c = false) : stripL l = l := by
  unfold stripL
  rw [dropWsL_noop l.reverse (fun c hc => h c (List.mem_reverse.mp hc)),
    List.reverse_reverse, dropWsL_noop l h]

theorem digRunF_step (f : Nat) (c : Char) (cs : List Char) (hc : c.isDigit = true)
    (h : cs.head? ≠ some '_') :
    digRunF (f + 1) (c :: cs) =
      (if (digRunF f cs).1 = [] then ([c], cs) else (c :: (digRunF f cs).1, (digRunF f cs).2)) := by
  conv_lhs => unfold digRunF
  rw [if_pos hc]
  split
  · simp at h
  · rfl

theorem digRunF_append (ds : List Char) : ∀ (rest : List Char) (fuel : Nat),
    ds.all Char.isDigit = true →
    (∀ r rs, rest = r :: rs → r.isDigit = false ∧ r ≠ '_') →
    (ds ++ rest).length ≤ fuel →
    digRunF fuel (ds ++ rest) = (ds, rest) := by
  induction ds with
  | nil =>
    intro rest fuel _ hrest hlen
    cases rest with
    | nil => cases fuel <;> rfl
    | cons r rs =>
      cases fuel with
      | zero => simp at hlen
      | succ f =>
        obtain ⟨hr, _⟩ := hrest r rs rfl
        show digRunF (f + 1) (r :: rs) = ([], r :: rs)
        unfold digRunF
        rw [if_neg]
        rw [hr]
        simp
  | cons c ds' ih =>
    intro rest fuel hall hrest hlen
    have hc : c.isDigit = true := by
      simp [List.all_cons] at hall
      exact hall.1
    have hds' : ds'.all Char.isDigit = true := by
      simp [List.all_cons] at hall
      exact List.all_eq_true.mpr (fun x hx => hall.2 x hx)
    cases fuel with
    | zero => simp at hlen
    | succ f =>
      have hhead : (ds' ++ rest).head? ≠ some '_' := by
        cases ds' with
        | nil =>
          cases rest with
          | nil => simp
          | cons r rs =>
            obtain ⟨_, hrne⟩ := hrest r rs rfl
            simpa using hrne
        | cons d' ds'' =>
          have hd' : d'.isDigit = true := by
            simp [List.all_cons] at hds'
            exact hds'.1
          simpa using isDigit_ne d' '_' hd' (by decide)
      have hrec : digRunF f (ds' ++ rest) = (ds', rest) := by
        apply ih rest f hds' hrest
        simp at hlen ⊢
        omega
      show digRunF (f + 1) (c :: (ds' ++ rest)) = (c :: ds', rest)
      rw [digRunF_step f c (ds' ++ rest) hc hhead, hrec]
      cases ds' with
      | nil => simp
      | cons d' ds'' => simp

theorem digRun_digits (l : List Char) (h : l.all Char.isDigit = true) :
    digRun l = (l, []) := by
  have := digRunF_append l [] l.length h (fun r rs hr => by cases hr) (by simp)
  simpa [digRun] using this

theorem pyIntParse_digits (l : List Char) (hne : l ≠ []) (h : l.all Char.isDigit = true) :
    pyIntParse l = some ((digitsVal l : Nat) : Int) := by
  cases l with
  | nil => exact absurd rfl hne
  | cons c cs =>
    have hc : c.isDigit = true := by
      simp [List.all_cons] at h
      exact h.1
    unfold pyIntParse
    have hsign : (match c :: cs with
        | '+' :: r => ((false : Bool), r)
        | '-' :: r => ((true : Bool), r)
        | _ => ((false : Bool), c :: cs)) = ((false : Bool), c :: cs) := by
      split
      · rename_i heq
        injection heq with h1 _
        exact absurd h1 (isDigit_ne c '+' hc (by decide))
      · rename_i heq
        injection heq with h1 _
        exact absurd h1 (isDigit_ne c '-' hc (by decide))
      · rfl
    rw [hsign]
    simp only
    rw [digRun_digits (c :: cs) h]
    simp

/-- C5 counterexample: Python `int` accepts a leading minus sign, so
`_int_or_zero` maps `-5` to the negative string `-5`, which is not the
decimal form of a non-negative integer. -/
theorem claim_C5_cex :
    _int_or_zero "-5" = "-5" ∧ isNonnegIntStr (_int_or_zero "-5") = false :=
  ⟨by rfl, by rfl⟩

/-- C5 as amended: `_int_or_zero` always returns the decimal form of an
integer (never non-numeric, possibly with a leading minus sign), returns
the literal `0` on any input that does not parse as an integer, and is
non-negative on every input consisting solely of decimal digits, which is
the only shape the day-block pattern feeds it. -/
theorem claim_C5 (s : String) :
    isIntStr (_int_or_zero s) = true ∧
    (pyIntParse (stripL s.data) = none → _int_or_zero s = "0") ∧
    (s.data ≠ [] → s.data.all Char.isDigit = true →
      isNonnegIntStr (_int_or_zero s) = true) := by
  refine ⟨?_, fun h => by simp [_int_or_zero, h], fun hne hdig => ?_⟩
  · unfold _int_or_zero
    cases hp : pyIntParse (stripL s.data) with
    | none => rfl
    | some i => exact isIntStr_intToStrL i
  · have hstrip : stripL s.data = s.data :=
      stripL_noop _ (fun c hc => isDigit_not_ws c (List.all_eq_true.mp hdig c hc))
    unfold _int_or_zero
    rw [hstrip, pyIntParse_digits _ hne hdig]
    simp only
    unfold intToStrL
    rw [if_neg (by omega)]
    have : ((digitsVal s.data : Nat) : Int).natAbs = digitsVal s.data := by omega
    rw [this]
    simp [isNonnegIntStr, natToStrL_ne_nil, List.all_eq_true]
    intro c hc
    exact List.all_eq_true.mp (natToStrL_all _) c hc

/-- Witness for the amended C5 at concrete inputs. -/
theorem claim_C5_w :
    isIntStr (_int_or_zero "12") = true ∧ _int_or_zero "abc" = "0" ∧
      isNonnegIntStr (_int_or_zero "12") = true :=
  ⟨(claim_C5 "12").1, (claim_C5 "abc").2.1 (by rfl),
   (claim_C5 "12").2.2 (by decide) (by decide)⟩

theorem takeDigits_all (l : List Char) : (takeDigits l).1.all Char.isDigit = true := by
  induction l with
  | nil => rfl
  | cons c cs ih =>
    unfold takeDigits
    split_ifs with hc
    · simpa [List.all_cons, hc] using ih
    · rfl

theorem takeDigits_append (ds : List Char) : ∀ rest : List Char,
    ds.all Char.isDigit = true →
    (∀ r rs, rest = r :: rs → r.isDigit = false) →
    takeDigits (ds ++ rest) = (ds, rest) := by
  induction ds with
  | nil =>
    intro rest _ hrest
    cases rest with
    | nil => rfl
    | cons r rs =>
      rw [List.nil_append]
      simp only [takeDigits]
      rw [hrest r rs rfl]
      simp
  | cons c ds' ih =>
    intro rest hall hrest
    have hc : c.isDigit = true := by
      simp [List.all_cons] at hall
      exact hall.1
    have hds' : ds'.all Char.isDigit = true := by
      simp [List.all_cons] at hall
      exact List.all_eq_true.mpr (fun x hx => hall.2 x hx)
    show takeDigits (c :: (ds' ++ rest)) = (c :: ds', rest)
    unfold takeDigits
    rw [if_pos hc, ih rest hds' hrest]

theorem takeDigits1_some (l : List Char) (t : List Char × List Char)
    (h : takeDigits1 l = some t) : t.1 ≠ [] ∧ t.1.all Char.isDigit = true := by
  unfold takeDigits1 at h
  dsimp only at h
  split_ifs at h with he
  injection h with h
  subst h
  exact ⟨he, takeDigits_all l⟩

theorem dayNumPart_some (cs : List Char) (t : List Char × List Char)
    (h : dayNumPart cs = some t) : t.1 ≠ [] ∧ t.1.all Char.isDigit = true :=
  takeDigits1_some _ _ h

theorem payCapture_some (cs : List Char) (t : List Char × List Char)
    (h : payCapture cs = some t) :
    ∃ ds fr, t.1 = ds ++ fr ∧ ds ≠ [] ∧ ds.all Char.isDigit = true ∧
      (fr = [] ∨ (∃ a, fr = ['.', a] ∧ a.isDigit = true) ∨
        (∃ a b, fr = ['.', a, b] ∧ a.isDigit = true ∧ b.isDigit = true)) := by
  unfold payCapture at h
  rw [Option.bind_eq_some] at h
  obtain ⟨t0, ht0, h⟩ := h
  obtain ⟨h1, h2⟩ := takeDigits1_some cs t0 ht0
  revert h
  split
  · -- t0.2 = '.' :: r2
    rename_i r2 heq
    intro h
    dsimp only at h
    split_ifs at h with hf
    · injection h with h
      subst h
      exact ⟨t0.1, [], by simp, h1, h2, Or.inl rfl⟩
    · injection h with h
      subst h
      have hfall := takeDigits_all r2
      cases hc : (takeDigits r2).1 with
      | nil => exact absurd hc hf
      | cons a rest =>
        rw [hc] at hfall
        simp only [List.all_cons, Bool.and_eq_true] at hfall
        cases rest with
        | nil =>
          refine ⟨t0.1, ['.', a], by simp [hc], h1, h2, Or.inr (Or.inl ⟨a, ?_, hfall.1⟩)⟩
          simp [hc]
        | cons b rest2 =>
          have hb : b.isDigit = true := by
            simp only [List.all_cons, Bool.and_eq_true] at hfall
            exact hfall.2.1
          refine ⟨t0.1, ['.', a, b], by simp [hc], h1, h2,
            Or.inr (Or.inr ⟨a, b, ?_, hfall.1, hb⟩)⟩
          simp [hc]
  · -- t0.2 does not start with a point
    intro h
    injection h with h
    subst h
    exact ⟨t0.1, [], by simp, h1, h2, Or.inl rfl⟩

theorem dayMatchAt_shape (day cs : List Char) (t : List Char × List Char × List Char)
    (h : dayMatchAt day cs = some t) :
    (t.1 ≠ [] ∧ t.1.all Char.isDigit = true) ∧
    (t.2.1 ≠ [] ∧ t.2.1.all Char.isDigit = true) ∧
    (∃ ds fr, t.2.2 = ds ++ fr ∧ ds ≠ [] ∧ ds.all Char.isDigit = true ∧
      (fr = [] ∨ (∃ a, fr = ['.', a] ∧ a.isDigit = true) ∨
        (∃ a b, fr = ['.', a, b] ∧ a.isDigit = true ∧ b.isDigit = true))) := by
  unfold dayMatchAt at h
  simp only [Option.bind_eq_some] at h
  obtain ⟨csA, _, csB, _, csC, _, st, hst, csD, _, csE, _, pc, hpc, csF, _, pay, hpay, ht⟩ := h
  injection ht with ht
  subst ht
  dsimp only
  exact ⟨dayNumPart_some _ st hst, dayNumPart_some _ pc hpc,
    payCapture_some _ pay hpay⟩

theorem removePatF_noop (p0 : Char) (ps : List Char) : ∀ (fuel : Nat) (l : List Char),
    p0 ∉ l → removePatF (p0 :: ps) fuel l = l := by
  intro fuel
  induction fuel with
  | zero => intro l _; rfl
  | succ f ih =>
    intro l hmem
    cases l with
    | nil => rfl
    | cons c cs =>
      unfold removePatF
      rw [if_neg, ih cs (fun hc => hmem (List.mem_cons_of_mem c hc))]
      rintro ⟨-, hpre⟩
      unfold listStarts at hpre
      simp only [Bool.and_eq_true, beq_iff_eq] at hpre
      exact hmem (hpre.1 ▸ List.mem_cons_self c cs)

theorem removePat_noop (p0 : Char) (ps l : List Char) (h : p0 ∉ l) :
    removePat (p0 :: ps) l = l :=
  removePatF_noop p0 ps l.length l h

theorem lowerL_cons (c : Char) (cs : List Char) :
    lowerL (c :: cs) = lowerChar c :: lowerL cs := rfl

theorem parseNumBody_digits (ds : List Char) (hne : ds ≠ [])
    (hall : ds.all Char.isDigit = true) :
    parseNumBody ds = some ⟨((digitsVal ds : Nat) : Int), 1⟩ := by
  unfold parseNumBody
  rw [digRun_digits ds hall]
  show (if ds = [] then none else parseExpPart ⟨((digitsVal ds : Nat) : Int), 1⟩ []) = _
  rw [if_neg hne]
  rfl

theorem parseNumBody_frac (ds fs : List Char) (hne : ds ≠ [])
    (hall : ds.all Char.isDigit = true) (hfne : fs ≠ [])
    (hfall : fs.all Char.isDigit = true) :
    parseNumBody (ds ++ '.' :: fs)
      = some ⟨((digitsVal ds * 10 ^ fs.length + digitsVal fs : Nat) : Int), 10 ^ fs.length⟩ := by
  have hip : digRun (ds ++ '.' :: fs) = (ds, '.' :: fs) := by
    have h := digRunF_append ds ('.' :: fs) (ds ++ '.' :: fs).length hall ?_ le_rfl
    · exact h
    · intro r rs hr
      injection hr with h1 _
      subst h1
      exact ⟨by decide, by decide⟩
  unfold parseNumBody
  rw [hip]
  show (if ds = [] ∧ (digRun fs).1 = [] then none
        else parseExpPart
          ⟨((digitsVal ds * 10 ^ (digRun fs).1.length + digitsVal (digRun fs).1 : Nat) : Int),
            10 ^ (digRun fs).1.length⟩ (digRun fs).2) = _
  rw [digRun_digits fs hfall]
  rw [if_neg (by simp [hfne])]
  rfl

theorem pyFloatParse_payment (ds fr : List Char) (hds : ds ≠ [])
    (hall : ds.all Char.isDigit = true)
    (hfr : fr = [] ∨ (∃ a, fr = ['.', a] ∧ a.isDigit = true) ∨
      (∃ a b, fr = ['.', a, b] ∧ a.isDigit = true ∧ b.isDigit = true)) :
    ∃ mant, pyFloatParse (ds ++ fr) = some (.finite false mant) := by
  have hnws : ∀ c ∈ ds ++ fr, isPyWs c = false := by
    intro c hc
    rcases List.mem_append.mp hc with hc | hc
    · exact isDigit_not_ws c (List.all_eq_true.mp hall c hc)
    · rcases hfr with rfl | ⟨a, rfl, ha⟩ | ⟨a, b, rfl, ha, hb⟩
      · cases hc
      · rcases (by simpa using hc : c = '.' ∨ c = a) with rfl | rfl
        · decide
        · exact isDigit_not_ws c ha
      · rcases (by simpa using hc : c = '.' ∨ c = a ∨ c = b) with rfl | rfl | rfl
        · decide
        · exact isDigit_not_ws c ha
        · exact isDigit_not_ws c hb
  have hbody : ∃ mant, parseNumBody (ds ++ fr) = some mant := by
    rcases hfr with rfl | ⟨a, rfl, ha⟩ | ⟨a, b, rfl, ha, hb⟩
    · rw [List.append_nil]
      exact ⟨_, parseNumBody_digits ds hds hall⟩
    · exact ⟨_, parseNumBody_frac ds [a] hds hall (by simp) (by simp [ha])⟩
    · exact ⟨_, parseNumBody_frac ds [a, b] hds hall (by simp) (by simp [ha, hb])⟩
  obtain ⟨mant, hbody⟩ := hbody
  obtain ⟨c, ds', rfl⟩ : ∃ c ds', ds = c :: ds' := by
    cases ds with
    | nil => exact absurd rfl hds
    | cons c ds' => exact ⟨c, ds', rfl⟩
  have hc : c.isDigit = true := by
    simp only [List.all_cons, Bool.and_eq_true] at hall
    exact hall.1
  refine ⟨mant, ?_⟩
  simp only [pyFloatParse, List.cons_append]
  rw [stripL_noop _ (by simpa using hnws)]
  have hsign : (match c :: (ds' ++ fr) with
      | '+' :: r => ((false : Bool), r)
      | '-' :: r => ((true : Bool), r)
      | _ => ((false : Bool), c :: (ds' ++ fr))) = ((false : Bool), c :: (ds' ++ fr)) := by
    split
    · rename_i heq
      injection heq with h1 _
      exact absurd h1 (isDigit_ne c '+' hc (by decide))
    · rename_i heq
      injection heq with h1 _
      exact absurd h1 (isDigit_ne c '-' hc (by decide))
    · rfl
  rw [hsign]
  dsimp only
  rw [if_neg, if_neg]
  · rw [show (c :: (ds' ++ fr)) = (c :: ds') ++ fr by simp, hbody]
  · rw [lowerL_cons, isDigit_lower c hc]
    intro heq
    have hcn : c = 'n' := by
      have := congrArg List.head? heq
      simpa using this
    rw [hcn] at hc
    exact absurd hc (by decide)
  · rintro (heq | heq) <;>
    · rw [lowerL_cons, isDigit_lower c hc] at heq
      have hci : c = 'i' := by
        have := congrArg List.head? heq
        simpa using this
      rw [hci] at hc
      exact absurd hc (by decide)

theorem isTwoDpStr_fmt2 (v : Q) : isTwoDpStr (String.mk (fmt2 false v)) = true := by
  unfold fmt2 isTwoDpStr
  dsimp only
  rw [if_neg (by decide), List.nil_append]
  rw [takeDigits_append _ _ (natToStrL_all _)
    (by intro r rs hr; injection hr with h1 _; subst h1; decide)]
  show (decide (natToStrL ((rndHE ⟨v.num * 100, v.den⟩).toNat / 100) ≠ []) &&
    ((digitChar ((rndHE ⟨v.num * 100, v.den⟩).toNat % 100 / 10 % 10)).isDigit &&
      (digitChar ((rndHE ⟨v.num * 100, v.den⟩).toNat % 100 % 10)).isDigit)) = true
  simp [natToStrL_ne_nil, digitChar_isDigit _ (Nat.mod_lt _ (by omega : (0:Nat) < 10))]

theorem payment_chars (ds fr : List Char) (hall : ds.all Char.isDigit = true)
    (hfr : fr = [] ∨ (∃ a, fr = ['.', a] ∧ a.isDigit = true) ∨
      (∃ a b, fr = ['.', a, b] ∧ a.isDigit = true ∧ b.isDigit = true)) :
    ∀ c ∈ ds ++ fr, c.isDigit = true ∨ c = '.' := by
  intro c hc
  rcases List.mem_append.mp hc with hc | hc
  · exact Or.inl (List.all_eq_true.mp hall c hc)
  · rcases hfr with rfl | ⟨a, rfl, ha⟩ | ⟨a, b, rfl, ha, hb⟩
    · cases hc
    · rcases (by simpa using hc : c = '.' ∨ c = a) with rfl | rfl
      · exact Or.inr rfl
      · exact Or.inl ha
    · rcases (by simpa using hc : c = '.' ∨ c = a ∨ c = b) with rfl | rfl | rfl
      · exact Or.inr rfl
      · exact Or.inl ha
      · exact Or.inl hb

theorem two_dp_payment (ds fr : List Char) (hds : ds ≠ [])
    (hall : ds.all Char.isDigit = true)
    (hfr : fr = [] ∨ (∃ a, fr = ['.', a] ∧ a.isDigit = true) ∨
      (∃ a b, fr = ['.', a, b] ∧ a.isDigit = true ∧ b.isDigit = true)) :
    isTwoDpStr (_two_dp (String.mk (ds ++ fr))) = true
      ∨ _two_dp (String.mk (ds ++ fr)) = "inf" := by
  have hchars := payment_chars ds fr hall hfr
  have hpound : '£' ∉ ds ++ fr := by
    intro hmem
    rcases hchars _ hmem with hd | hd
    · exact absurd hd (by decide)
    · exact absurd hd (by decide)
  have hneg : '¬' ∉ ds ++ fr := by
    intro hmem
    rcases hchars _ hmem with hd | hd
    · exact absurd hd (by decide)
    · exact absurd hd (by decide)
  have hnws : ∀ c ∈ ds ++ fr, isPyWs c = false := by
    intro c hc
    rcases hchars c hc with hd | rfl
    · exact isDigit_not_ws c hd
    · decide
  obtain ⟨mant, hparse⟩ := pyFloatParse_payment ds fr hds hall hfr
  unfold _two_dp
  dsimp only
  rw [removePat_noop '£' [] _ hpound, removePat_noop '¬' ['£'] _ hneg,
    stripL_noop _ hnws, hparse]
  show isTwoDpStr (match toDouble mant with
      | none => String.mk ((if false = true then ['-'] else []) ++ "inf".data)
      | some v => String.mk (fmt2 false v)) = true ∨
    (match toDouble mant with
      | none => String.mk ((if false = true then ['-'] else []) ++ "inf".data)
      | some v => String.mk (fmt2 false v)) = "inf"
  cases htd : toDouble mant with
  | none =>
    right
    rfl
  | some v =>
    left
    exact isTwoDpStr_fmt2 v

theorem isNonnegIntStr_int_or_zero (l : List Char) (hne : l ≠ [])
    (hd : l.all Char.isDigit = true) :
    isNonnegIntStr (_int_or_zero (String.mk l)) = true := by
  have hstrip : stripL l = l :=
    stripL_noop _ (fun c hc => isDigit_not_ws c (List.all_eq_true.mp hd c hc))
  unfold _int_or_zero
  dsimp only
  rw [hstrip, pyIntParse_digits _ hne hd]
  simp only
  unfold intToStrL
  rw [if_neg (by omega)]
  have h2 : ((digitsVal l : Nat) : Int).natAbs = digitsVal l := by omega
  rw [h2]
  simp [isNonnegIntStr, natToStrL_ne_nil, List.all_eq_true]
  intro c hc
  exact List.all_eq_true.mp (natToStrL_all _) c hc

theorem reSearch_some {α : Type} (f : List Char → Option α) :
    ∀ (l : List Char) (r : α), reSearch f l = some r → ∃ lSub, f lSub = some r := by
  intro l
  induction l with
  | nil => exact fun r h => ⟨[], h⟩
  | cons c cs ih =>
    intro r h
    unfold reSearch at h
    revert h
    split
    · rename_i v heq
      intro h
      injection h with h
      subst h
      exact ⟨c :: cs, heq⟩
    · intro h
      exact ih r h

set_option maxHeartbeats 1000000 in
/-- Claim C4 (amended): every entry of `extract_days_block` has a stop count
and parcel count that are non-negative decimal integer strings, and a payment
that either has exactly two fraction digits or is the overflow string "inf"
(a captured payment with hundreds of digits overflows the double conversion,
so exactly-two-decimals does not hold universally); a weekday whose block
pattern matches nowhere in the text yields exactly the triple
("0", "0", "0.00"). -/
theorem claim_C4 (text : String) :
    ∀ e ∈ extract_days_block text,
      isNonnegIntStr e.2.1 = true ∧ isNonnegIntStr e.2.2.1 = true ∧
      (isTwoDpStr e.2.2.2 = true ∨ e.2.2.2 = "inf") ∧
      (reSearch (dayMatchAt e.1.data) text.data = none →
        e.2 = ("0", "0", "0.00")) := by
  intro e he
  rcases List.mem_map.mp he with ⟨day, _, rfl⟩
  dsimp only
  unfold dayTriple
  cases hs : reSearch (dayMatchAt day.data) text.data with
  | none =>
    exact ⟨by decide, by decide, Or.inl (by decide), fun _ => by rfl⟩
  | some t =>
    obtain ⟨lSub, hsub⟩ := reSearch_some (dayMatchAt day.data) text.data t hs
    obtain ⟨⟨h1ne, h1all⟩, ⟨h2ne, h2all⟩, ds, fr, hpay, hdsne, hdsall, hfr⟩ :=
      dayMatchAt_shape day.data lSub t hsub
    refine ⟨isNonnegIntStr_int_or_zero _ h1ne h1all,
      isNonnegIntStr_int_or_zero _ h2ne h2all, ?_,
      fun hnone => Option.noConfusion hnone⟩
    show isTwoDpStr (_two_dp (String.mk t.2.2)) = true ∨
      _two_dp (String.mk t.2.2) = "inf"
    rw [hpay]
    exact two_dp_payment ds fr hdsne hdsall hfr

/-- Witness for claim C4 at a concrete text with no weekday block: the Monday
entry of `extract_days_block "no blocks"` has valid count strings and the
default triple. -/
theorem claim_C4_w :
    isNonnegIntStr ("0" : String) = true ∧
      (("Monday", ("0", "0", "0.00")) :
        String × String × String × String).2 = ("0", "0", "0.00") := by
  have h := claim_C4 "no blocks" ("Monday", ("0", "0", "0.00")) (by decide)
  exact ⟨h.1, h.2.2.2 (by rfl)⟩
